import Mathlib

/-!
Verification development for the monorepo release-version-bump action.

The definitions below are a shallow embedding of the TypeScript sources:
  - src/src/package-operations.ts (manifest model, update planner, package
    selection, workspace discovery)
  - src/src/git-operations.ts (change detection, diff memoization)

JavaScript records (plain objects) are modelled as association lists of
key/value pairs so that insertion order is preserved; JavaScript Sets are
modelled as lists of names; async functions that the source mistakenly
treats as plain predicates are modelled through an explicit JsPromise
wrapper whose JavaScript truthiness is constantly true, exactly as a
Promise object is always truthy.  Functions that can throw are embedded
as Except-valued functions carrying the thrown message.
-/

namespace MonorepoRelease

/-- Release-type tokens of the semver library (the ReleaseType union type
used by the source). -/
inductive ReleaseType where
  | major
  | premajor
  | minor
  | preminor
  | patch
  | prepatch
  | prerelease
deriving DecidableEq

/-- The token text of a release type, as the semver library returns it. -/
def releaseTypeString : ReleaseType → String
  | ReleaseType.major => "major"
  | ReleaseType.premajor => "premajor"
  | ReleaseType.minor => "minor"
  | ReleaseType.preminor => "preminor"
  | ReleaseType.patch => "patch"
  | ReleaseType.prepatch => "prepatch"
  | ReleaseType.prerelease => "prerelease"

/-- Whether the first list is an initial segment of the second,
character by character. -/
def isPrefixList : List Char → List Char → Bool
  | [], _ => true
  | _ :: _, [] => false
  | c :: cs, d :: ds => c == d && isPrefixList cs ds

/-- Whether the first list occurs as a contiguous run inside the second. -/
def hasSubList (needle : List Char) : List Char → Bool
  | [] => isPrefixList needle []
  | c :: rest => isPrefixList needle (c :: rest) || hasSubList needle rest

/-- JavaScript String.prototype.includes: substring containment test. -/
def stringIncludes (hay needle : String) : Bool :=
  hasSubList needle.data hay.data

/-- Embeds isMajorSemVerDiff of src/src/package-operations.ts:
diff.includes(AcceptedSemVerDiffs.Major), a substring test of the token
"major" against the release-type token text. -/
def isMajorSemVerDiff (diff : ReleaseType) : Bool :=
  stringIncludes (releaseTypeString diff) "major"

/-- Embeds pathUtils.join for the simple two-segment joins the source
performs. -/
def pathJoin (a b : String) : String := a ++ "/" ++ b

/-- Embeds the PackageManifest interface: name, version, and the three
dependency field groups (dependencies, devDependencies, peerDependencies).
Each group is an association list from dependency name to range string;
a group absent from the underlying JSON object is modelled as none. -/
structure PackageManifest where
  name : String
  version : String
  dependencies : Option (List (String × String))
  devDependencies : Option (List (String × String))
  peerDependencies : Option (List (String × String))
deriving DecidableEq

/-- Embeds the PackageMetadata interface of src/src/package-operations.ts. -/
structure PackageMetadata where
  dirName : String
  manifest : PackageManifest
  name : String
  path : String
deriving DecidableEq

/-- Embeds the UpdateContext interface of src/src/package-operations.ts.
The Set of package names to update is modelled as a list. -/
structure UpdateContext where
  versionDiff : ReleaseType
  newVersion : String
  packagesToUpdate : List String
deriving DecidableEq

/-- First-match association-list lookup, the semantics of reading a key
from a JavaScript object or Map. -/
def assq {α : Type} (k : String) : List (String × α) → Option α
  | [] => none
  | (k2, v) :: rest => if k2 == k then some v else assq k rest

/-- Embeds getUpdatedDependencyField of src/src/package-operations.ts:
rebuilds the dependency group in key order, replacing the range of every
dependency whose name is in packagesToUpdate by the caret range against
the new version and copying every other entry unchanged. -/
def getUpdatedDependencyField (dependencyField : List (String × String))
    (updateContext : UpdateContext) : List (String × String) :=
  dependencyField.map (fun kv =>
    (kv.1,
      if updateContext.packagesToUpdate.contains kv.1 then
        "^" ++ updateContext.newVersion
      else kv.2))

/-- The partial record produced by getUpdatedDependencyFields: one entry
per dependency field group, present exactly when the group is present in
the input manifest. -/
structure DependencyFieldsPatch where
  dependencies : Option (List (String × String))
  devDependencies : Option (List (String × String))
  peerDependencies : Option (List (String × String))
deriving DecidableEq

/-- Embeds getUpdatedDependencyFields of src/src/package-operations.ts:
for each of the three dependency field groups, if the group is present in
the manifest, the patch carries the rewritten group; absent groups are
absent from the patch. -/
def getUpdatedDependencyFields (manifest : PackageManifest)
    (updateContext : UpdateContext) : DependencyFieldsPatch :=
  { dependencies :=
      manifest.dependencies.map (fun f => getUpdatedDependencyField f updateContext)
    devDependencies :=
      manifest.devDependencies.map (fun f => getUpdatedDependencyField f updateContext)
    peerDependencies :=
      manifest.peerDependencies.map (fun f => getUpdatedDependencyField f updateContext) }

/-- Embeds getUpdatedManifest of src/src/package-operations.ts: on a major
diff the manifest is spread together with the dependency-field patch and
the new version; otherwise only the version field is overwritten.  The
object-spread semantics make a patch group overwrite the manifest group
exactly when the group key is present in the patch, which is exactly when
the group is present in the manifest. -/
def getUpdatedManifest (currentManifest : PackageManifest)
    (updateContext : UpdateContext) : PackageManifest :=
  if isMajorSemVerDiff updateContext.versionDiff then
    { name := currentManifest.name
      version := updateContext.newVersion
      dependencies :=
        (getUpdatedDependencyFields currentManifest updateContext).dependencies
      devDependencies :=
        (getUpdatedDependencyFields currentManifest updateContext).devDependencies
      peerDependencies :=
        (getUpdatedDependencyFields currentManifest updateContext).peerDependencies }
  else
    { currentManifest with version := updateContext.newVersion }

/-- A JavaScript Promise object wrapping a resolution value. -/
structure JsPromise (α : Type) where
  resolved : α

/-- JavaScript truthiness of an object value: every object, a Promise
included, is truthy regardless of its eventual resolution value. -/
def jsIsTruthy {α : Type} (_ : JsPromise α) : Bool := true

/-- Embeds getPackagesToUpdate of src/src/package-operations.ts.  On a
major diff it returns every package name.  Otherwise the source calls
Array.prototype.filter with an async callback: the callback is invoked
once per key and returns a Promise, and filter keeps an element when the
returned value is truthy, so the JsPromise wrapper reproduces the fact
that the Promise object, not the awaited boolean, is what filter tests.
The second component of the result is the list of package names on which
the change detector was invoked. -/
def getPackagesToUpdate (allPackages : List (String × PackageMetadata))
    (versionDiff : ReleaseType) (didChange : String → Bool) :
    List String × List String :=
  if isMajorSemVerDiff versionDiff then
    (allPackages.map Prod.fst, [])
  else
    ((allPackages.map Prod.fst).filter
        (fun packageName => jsIsTruthy (JsPromise.mk (didChange packageName))),
      allPackages.map Prod.fst)

/-- Embeds versionToTag of src/src/git-operations.ts. -/
def versionToTag (version : String) : String := "v" ++ version

/-- The message of the error thrown by didPackageChange when the manifest
version has no corresponding tag. -/
def noCorrespondingTagError (packageName currentVersion : String) : String :=
  "Package \"" ++ packageName ++ "\" has version \"" ++ currentVersion ++
    "\" in its manifest, but no corresponding tag \"" ++
    versionToTag currentVersion ++ "\" exists."

/-- Modelled from the spec: the empty-tag-set short-circuit of the Change
Detector (spec section 4.4) — the git-operations module variant whose tag
listing permits an empty tag set (getTags with an allowEmpty flag,
exercised by git-operations.test.ts) is absent from src, so its
didPackageChange branch for an empty tag set is taken from the spec
sentence that an untagged workspace is always considered changed without
consulting the diff query.  All remaining branches embed didPackageChange
and hasDiff of src/src/git-operations.ts: compute the tag of the manifest
version, throw when the tag set does not contain it, otherwise query the
diff for that tag and report whether some changed path starts with the
package directory prefix.  The result pairs the boolean with the number
of diff-query invocations performed. -/
def didPackageChange (tagSet : List String) (packageData : PackageMetadata)
    (diffSince : String → List String) (packagesDir : String) :
    Except String (Bool × Nat) :=
  if tagSet.isEmpty then
    Except.ok (true, 0)
  else
    let tagOfCurrentVersion := versionToTag packageData.manifest.version
    if tagSet.contains tagOfCurrentVersion then
      let diff := diffSince tagOfCurrentVersion
      Except.ok
        (diff.any (fun diffPath =>
          diffPath.startsWith (pathJoin packagesDir packageData.dirName)), 1)
    else
      Except.error
        (noCorrespondingTagError packageData.manifest.name
          packageData.manifest.version)

/-- One entry of the packages directory listing, with the manifest read
from it and whether the entry is itself a directory. -/
structure DirEntry where
  dirName : String
  manifest : PackageManifest
  isDir : Bool
deriving DecidableEq

/-- The metadata record built by getPackagesMetadata for one directory. -/
def makePackageMetadata (packagesPath : String) (entry : DirEntry) :
    PackageMetadata :=
  { dirName := entry.dirName
    manifest := entry.manifest
    name := entry.manifest.name
    path := pathJoin packagesPath entry.dirName }

/-- Overwrite the value of a pair when its key matches, keeping the pair
otherwise. -/
def setPair {α : Type} (k : String) (v : α) (p : String × α) : String × α :=
  if p.1 == k then (p.1, v) else p

/-- JavaScript object assignment obj[k] = v: when the key is already
present its value is overwritten in place, otherwise the pair is appended
in insertion order. -/
def recordSet {α : Type} (r : List (String × α)) (k : String) (v : α) :
    List (String × α) :=
  if r.any (fun p => p.1 == k) then
    r.map (setPair k v)
  else
    r ++ [(k, v)]

/-- Embeds getPackagesMetadata of src/src/package-operations.ts: walk the
directory entries, and for every entry that is a directory store its
metadata in the result record under the manifest name.  The source awaits
all entries through Promise.all; the fold processes them in listing
order. -/
def discoverStep (packagesPath : String)
    (result : List (String × PackageMetadata)) (e : DirEntry) :
    List (String × PackageMetadata) :=
  if e.isDir then
    recordSet result e.manifest.name (makePackageMetadata packagesPath e)
  else result

/-- The whole discovery pass: fold discoverStep over the listing starting
from the empty record. -/
def getPackagesMetadata (packagesPath : String) (entries : List DirEntry) :
    List (String × PackageMetadata) :=
  entries.foldl (discoverStep packagesPath) []

/-- Embeds performDiff of src/src/git-operations.ts: the DIFFS map is
consulted first, and only on a miss is the git diff invocation performed
and its result stored under the tag.  The third component reports whether
the underlying history tool was invoked by this call. -/
def performDiff (gitDiffOracle : String → String → List String)
    (tag packagesDir : String) (diffs : List (String × List String)) :
    List String × List (String × List String) × Bool :=
  match assq tag diffs with
  | some cached => (cached, diffs, false)
  | none =>
    let diff := gitDiffOracle tag packagesDir
    (diff, diffs ++ [(tag, diff)], true)

/-- Runs a sequence of diff requests against the memoizing performDiff,
threading the DIFFS map; returns the per-request results paired with the
invocation flag, and the final map. -/
def runDiffs (gitDiffOracle : String → String → List String) :
    List (String × String) → List (String × List String) →
    List (List String × Bool) × List (String × List String)
  | [], diffs => ([], diffs)
  | (tag, packagesDir) :: rest, diffs =>
    let res := performDiff gitDiffOracle tag packagesDir diffs
    let restRun := runDiffs gitDiffOracle rest res.2.1
    ((res.1, res.2.2) :: restRun.1, restRun.2)

/-- Number of requests in a run that both carry the given tag and actually
invoked the underlying history tool. -/
def countInvoked (tag : String) :
    List (String × String) → List (List String × Bool) → Nat
  | (t, _) :: rs, (_, invoked) :: os =>
    (if t == tag && invoked then 1 else 0) + countInvoked tag rs os
  | _, _ => 0

/-- Statement apparatus for claim C2: the output dependency group exists
exactly when the input group does, preserves the keys in order, and maps
every key either to the caret range against the new version (keys in the
update subset) or to its original range (all other keys). -/
def FieldRewritten (packagesToUpdate : List String) (newVersion : String)
    (inField outField : Option (List (String × String))) : Prop :=
  (inField = none → outField = none) ∧
  ∀ f, inField = some f → ∃ g, outField = some g ∧
    g.map Prod.fst = f.map Prod.fst ∧
    ∀ k v, assq k f = some v →
      assq k g =
        some (if packagesToUpdate.contains k then "^" ++ newVersion else v)

/-- Statement apparatus for claim C9: the last directory entry of the
listing whose manifest declares the given name. -/
def lastDirNamed (name : String) : List DirEntry → Option DirEntry
  | [] => none
  | e :: rest =>
    match lastDirNamed name rest with
    | some r => some r
    | none => if e.isDir && e.manifest.name == name then some e else none

/-- A three-package workspace snapshot used by concrete evaluations. -/
def simpleMeta (n : String) : PackageMetadata :=
  { dirName := n
    manifest :=
      { name := n, version := "1.0.0"
        dependencies := none, devDependencies := none, peerDependencies := none }
    name := n
    path := pathJoin "packages" n }

/-- Concrete snapshot with packages A, B, C. -/
def samplePackages : List (String × PackageMetadata) :=
  [("A", simpleMeta "A"), ("B", simpleMeta "B"), ("C", simpleMeta "C")]

/-- A change detector reporting true exactly for package B. -/
def sampleDetectorB (n : String) : Bool := n == "B"

/-- A change detector reporting false for every package. -/
def detectorNone (_ : String) : Bool := false

/-- A diff oracle returning no changed paths, for concrete evaluations. -/
def emptyDiffOracle (_ : String) : List String := []

/-- Package metadata whose manifest claims version 2.0.0, matching the
spec scenario for a missing tag. -/
def sampleMetaV2 : PackageMetadata :=
  { dirName := "foo"
    manifest :=
      { name := "fooName", version := "2.0.0"
        dependencies := none, devDependencies := none, peerDependencies := none }
    name := "fooName"
    path := "packages/foo" }

/-- Concrete update context for the synchronizing witnesses. -/
def witCtx : UpdateContext :=
  { versionDiff := ReleaseType.major
    newVersion := "2.0.0"
    packagesToUpdate := ["name1", "name2", "name3"] }

/-- Concrete manifest with two dependency groups for the C2 witness. -/
def witManifest : PackageManifest :=
  { name := "name1"
    version := "1.0.0"
    dependencies := some [("foo", "bar"), ("name2", "^1.0.0")]
    devDependencies := some [("name3", "^1.0.0")]
    peerDependencies := none }

/-- First of two directory entries that declare the same manifest name. -/
def dupEntryA : DirEntry :=
  { dirName := "dir1"
    manifest :=
      { name := "foo", version := "1.0.0"
        dependencies := none, devDependencies := none, peerDependencies := none }
    isDir := true }

/-- Second of two directory entries that declare the same manifest name. -/
def dupEntryB : DirEntry :=
  { dirName := "dir2"
    manifest :=
      { name := "foo", version := "1.0.0"
        dependencies := none, devDependencies := none, peerDependencies := none }
    isDir := true }

/-- Concrete diff oracle for the C10 witness. -/
def sampleDiffOracle (tag : String) (packagesDir : String) : List String :=
  [pathJoin packagesDir tag]

/-- Concrete request sequence repeating one tag, for the C10 witness. -/
def sampleRequests : List (String × String) :=
  [("v1.0.0", "packages"), ("v1.0.0", "packages"), ("v1.1.0", "packages")]

/-!
Theorems.  Each claim of the specification audit is settled by one named
theorem below; shared helper lemmas come first.
-/

/-- C3 counterexample: the premajor category — a pre-release category
distinct from major — also turns the synchronization switch on, because
the source tests token containment of "major" and "premajor" contains it.
This falsifies the claim that the switch is on exactly for the category
major and for no pre-release category. -/
theorem isMajorSemVerDiff_premajor_on :
    isMajorSemVerDiff ReleaseType.premajor = true ∧
      ReleaseType.premajor ≠ ReleaseType.major := by
  decide

/-- C3 (amended): the synchronization switch is on exactly when the
release-type token contains the text "major", that is, exactly for the
categories major and premajor — precisely the transitions in which the
major component of the version changed; minor, patch and the remaining
pre-release categories never turn it on. -/
theorem isMajorSemVerDiff_iff_major_or_premajor (d : ReleaseType) :
    isMajorSemVerDiff d = true ↔
      (d = ReleaseType.major ∨ d = ReleaseType.premajor) := by
  cases d <;> decide

/-- C7: on a synchronizing (major) bump, getPackagesToUpdate returns the
full list of package names of the snapshot and invokes the change
detector on no package at all, independent of the detector and hence of
any git state. -/
theorem getPackagesToUpdate_sync_all (allPackages : List (String × PackageMetadata))
    (versionDiff : ReleaseType) (didChange : String → Bool)
    (hsync : isMajorSemVerDiff versionDiff = true) :
    getPackagesToUpdate allPackages versionDiff didChange =
      (allPackages.map Prod.fst, []) := by
  simp [getPackagesToUpdate, hsync]

/-- Witness for C7 at a concrete snapshot and detector. -/
theorem getPackagesToUpdate_sync_all_witness :
    isMajorSemVerDiff ReleaseType.major = true ∧
      getPackagesToUpdate samplePackages ReleaseType.major sampleDetectorB =
        (samplePackages.map Prod.fst, []) :=
  ⟨by decide,
    getPackagesToUpdate_sync_all samplePackages ReleaseType.major sampleDetectorB
      (by decide)⟩

/-- C1 failing run: with synchronization off (a minor bump) and a change
detector reporting true only for B, the source returns all of A, B, C —
the async filter callback returns a Promise, which is always truthy — so
packages for which the detector reports false are included, contrary to
the claim that exactly the detector-true subset is returned. -/
theorem getPackagesToUpdate_async_filter_keeps_all :
    getPackagesToUpdate samplePackages ReleaseType.minor sampleDetectorB =
        (["A", "B", "C"], ["A", "B", "C"]) ∧
      sampleDetectorB "A" = false ∧ sampleDetectorB "B" = true := by
  decide

/-- C4 failing run: with synchronization off and a change detector
reporting false for every package, the source still returns normally with
every package name — it has no emptiness check and no failure path at
all — instead of failing with the NoPackagesToUpdate error that the claim
and the tests of the repository require. -/
theorem getPackagesToUpdate_no_failure_on_empty :
    getPackagesToUpdate samplePackages ReleaseType.patch detectorNone =
        (["A", "B", "C"], ["A", "B", "C"]) ∧
      detectorNone "A" = false ∧ detectorNone "B" = false ∧
        detectorNone "C" = false := by
  decide

/-- C5: with an empty tag set the Change Detector reports every package
as changed and performs zero diff-query invocations, whatever the diff
oracle and packages directory are. -/
theorem didPackageChange_empty_tagSet (packageData : PackageMetadata)
    (diffSince : String → List String) (packagesDir : String) :
    didPackageChange [] packageData diffSince packagesDir =
      Except.ok (true, 0) := rfl

/-- C6: with a nonempty tag set that does not contain the tag derived
from the manifest version by the fixed v-prefix convention, the Change
Detector fails with the no-corresponding-tag error rather than treating
the package as changed. -/
theorem didPackageChange_missing_tag (tagSet : List String)
    (packageData : PackageMetadata) (diffSince : String → List String)
    (packagesDir : String) (hne : tagSet ≠ [])
    (hmiss : tagSet.contains (versionToTag packageData.manifest.version) = false) :
    didPackageChange tagSet packageData diffSince packagesDir =
      Except.error
        (noCorrespondingTagError packageData.manifest.name
          packageData.manifest.version) := by
  cases tagSet with
  | nil => exact absurd rfl hne
  | cons t rest =>
    simp only [List.contains, List.elem_eq_mem, List.mem_cons,
      decide_eq_false_iff_not] at hmiss
    push_neg at hmiss
    simp [didPackageChange, hmiss.1, hmiss.2]

/-- Witness for C6 at the spec scenario: manifest version 2.0.0 against
the tag set v1.0.0, v1.1.0. -/
theorem didPackageChange_missing_tag_witness :
    (["v1.0.0", "v1.1.0"] : List String) ≠ [] ∧
      (["v1.0.0", "v1.1.0"] : List String).contains
          (versionToTag sampleMetaV2.manifest.version) = false ∧
      didPackageChange ["v1.0.0", "v1.1.0"] sampleMetaV2 emptyDiffOracle
          "packages" =
        Except.error (noCorrespondingTagError "fooName" "2.0.0") :=
  ⟨by decide, by decide,
    didPackageChange_missing_tag ["v1.0.0", "v1.1.0"] sampleMetaV2
      emptyDiffOracle "packages" (by decide) (by decide)⟩

/-- Lookup in a rewritten dependency group: the value of a key is the
original value rewritten to the caret range exactly when the key belongs
to the update subset. -/
theorem assq_getUpdatedDependencyField (updateContext : UpdateContext)
    (f : List (String × String)) (k : String) :
    assq k (getUpdatedDependencyField f updateContext) =
      (assq k f).map (fun v =>
        if updateContext.packagesToUpdate.contains k then
          "^" ++ updateContext.newVersion
        else v) := by
  induction f with
  | nil => rfl
  | cons kv rest ih =>
    simp only [getUpdatedDependencyField, List.map_cons, assq] at ih ⊢
    cases h : (kv.1 == k) with
    | false => simpa [h] using ih
    | true =>
      have hk : kv.1 = k := eq_of_beq h
      simp [h, hk]

/-- The rewrite of a dependency group preserves its keys in order. -/
theorem keys_getUpdatedDependencyField (updateContext : UpdateContext)
    (f : List (String × String)) :
    (getUpdatedDependencyField f updateContext).map Prod.fst = f.map Prod.fst := by
  induction f with
  | nil => rfl
  | cons kv rest ih => simp [getUpdatedDependencyField, ih]

/-- Lifting the group rewrite through an optional group satisfies the
FieldRewritten statement. -/
theorem fieldRewritten_map (updateContext : UpdateContext)
    (o : Option (List (String × String))) :
    FieldRewritten updateContext.packagesToUpdate updateContext.newVersion o
      (o.map (fun f => getUpdatedDependencyField f updateContext)) := by
  constructor
  · intro h; rw [h]; rfl
  · intro f hf
    refine ⟨getUpdatedDependencyField f updateContext, by rw [hf]; rfl,
      keys_getUpdatedDependencyField updateContext f, ?_⟩
    intro k v hkv
    rw [assq_getUpdatedDependencyField, hkv]
    rfl

/-- C2: with synchronization on, the planned manifest rewrites, in each
dependency field group present in the original manifest, every entry
whose key is in the update subset to the caret range against the new
version and leaves every other entry identical to the input; groups
absent from the input stay absent, and key order is preserved. -/
theorem getUpdatedManifest_sync_rewrites (m : PackageManifest)
    (updateContext : UpdateContext)
    (hsync : isMajorSemVerDiff updateContext.versionDiff = true) :
    FieldRewritten updateContext.packagesToUpdate updateContext.newVersion
        m.dependencies (getUpdatedManifest m updateContext).dependencies ∧
      FieldRewritten updateContext.packagesToUpdate updateContext.newVersion
        m.devDependencies (getUpdatedManifest m updateContext).devDependencies ∧
      FieldRewritten updateContext.packagesToUpdate updateContext.newVersion
        m.peerDependencies (getUpdatedManifest m updateContext).peerDependencies := by
  simp only [getUpdatedManifest, hsync, if_true, getUpdatedDependencyFields]
  exact ⟨fieldRewritten_map updateContext m.dependencies,
    fieldRewritten_map updateContext m.devDependencies,
    fieldRewritten_map updateContext m.peerDependencies⟩

/-- Witness for C2 at a concrete manifest with two dependency groups and
a synchronizing (major) context. -/
theorem getUpdatedManifest_sync_rewrites_witness :
    isMajorSemVerDiff witCtx.versionDiff = true ∧
      (FieldRewritten witCtx.packagesToUpdate witCtx.newVersion
          witManifest.dependencies
          (getUpdatedManifest witManifest witCtx).dependencies ∧
        FieldRewritten witCtx.packagesToUpdate witCtx.newVersion
          witManifest.devDependencies
          (getUpdatedManifest witManifest witCtx).devDependencies ∧
        FieldRewritten witCtx.packagesToUpdate witCtx.newVersion
          witManifest.peerDependencies
          (getUpdatedManifest witManifest witCtx).peerDependencies) :=
  ⟨by decide, getUpdatedManifest_sync_rewrites witManifest witCtx (by decide)⟩

/-- Rewriting a dependency group twice equals rewriting it once. -/
theorem getUpdatedDependencyField_idem (updateContext : UpdateContext)
    (f : List (String × String)) :
    getUpdatedDependencyField (getUpdatedDependencyField f updateContext)
        updateContext =
      getUpdatedDependencyField f updateContext := by
  induction f with
  | nil => rfl
  | cons kv rest ih =>
    simp only [getUpdatedDependencyField, List.map_cons, List.map_map] at ih ⊢
    refine congrArg₂ List.cons ?_ ih
    cases h : updateContext.packagesToUpdate.contains kv.1 <;> simp [h]

/-- Rewriting an optional dependency group twice equals rewriting once. -/
theorem optionField_idem (updateContext : UpdateContext)
    (o : Option (List (String × String))) :
    (o.map (fun f => getUpdatedDependencyField f updateContext)).map
        (fun f => getUpdatedDependencyField f updateContext) =
      o.map (fun f => getUpdatedDependencyField f updateContext) := by
  cases o <;> simp [getUpdatedDependencyField_idem]

/-- C8: the manifest-update planner is idempotent — applying it a second
time with the same update context to the already-updated manifest yields
the same manifest: the version field is overwritten to the same new
version and the dependency rewrites are stable. -/
theorem getUpdatedManifest_idempotent (m : PackageManifest)
    (updateContext : UpdateContext) :
    getUpdatedManifest (getUpdatedManifest m updateContext) updateContext =
      getUpdatedManifest m updateContext := by
  cases h : isMajorSemVerDiff updateContext.versionDiff with
  | false => simp [getUpdatedManifest, h]
  | true =>
    have hd := optionField_idem updateContext m.dependencies
    have hv := optionField_idem updateContext m.devDependencies
    have hp := optionField_idem updateContext m.peerDependencies
    simp only [Option.map_map] at hd hv hp
    simp [getUpdatedManifest, h, getUpdatedDependencyFields, hd, hv, hp]

/-- Association lookup over an appended list consults the left part
first. -/
theorem assq_append {α : Type} (k : String) (r s : List (String × α)) :
    assq k (r ++ s) =
      match assq k r with
      | some v => some v
      | none => assq k s := by
  induction r with
  | nil => rfl
  | cons kv rest ih =>
    obtain ⟨k2, v⟩ := kv
    cases h : (k2 == k) <;> simp [assq, h, ih]

/-- A key on which no pair matches is absent from the lookup. -/
theorem assq_none_of_any_false {α : Type} (k : String) (r : List (String × α))
    (h : r.any (fun p => p.1 == k) = false) : assq k r = none := by
  induction r with
  | nil => rfl
  | cons kv rest ih =>
    obtain ⟨k2, v⟩ := kv
    simp only [List.any_cons, Bool.or_eq_false_iff] at h
    simp [assq, h.1, ih h.2]

/-- A matching pair is overwritten by setPair. -/
theorem setPair_match {α : Type} (k : String) (v : α) (k2 : String) (w : α)
    (h : (k2 == k) = true) : setPair k v (k2, w) = (k2, v) := by
  simp [setPair, eq_of_beq h]

/-- A pair with another key is kept by setPair. -/
theorem setPair_skip {α : Type} (k : String) (v : α) (k2 : String) (w : α)
    (h : (k2 == k) = false) : setPair k v (k2, w) = (k2, w) := by
  simp only [setPair]
  rw [if_neg]
  simp [h]

/-- Overwriting the value of a present key makes the lookup return the
new value. -/
theorem assq_map_set {α : Type} (k : String) (v : α) (r : List (String × α))
    (h : r.any (fun p => p.1 == k) = true) :
    assq k (r.map (setPair k v)) = some v := by
  induction r with
  | nil => simp at h
  | cons kv rest ih =>
    obtain ⟨k2, w⟩ := kv
    cases h2 : (k2 == k) with
    | true =>
      rw [List.map_cons, setPair_match k v k2 w h2]
      simp [assq, eq_of_beq h2]
    | false =>
      simp only [List.any_cons, h2, Bool.false_or] at h
      rw [List.map_cons, setPair_skip k v k2 w h2]
      have hp : ¬k2 = k := fun he => by simp [he] at h2
      simp [assq, hp, ih h]

/-- Overwriting the value stored under an unrelated key leaves the lookup
of a key unchanged. -/
theorem assq_map_set_ne {α : Type} (k k2 : String) (v : α)
    (r : List (String × α)) (h : (k2 == k) = false) :
    assq k (r.map (setPair k2 v)) = assq k r := by
  induction r with
  | nil => rfl
  | cons kv rest ih =>
    obtain ⟨a, w⟩ := kv
    cases h2 : (a == k2) with
    | false =>
      rw [List.map_cons, setPair_skip k2 v a w h2]
      simp [assq, ih]
    | true =>
      rw [List.map_cons, setPair_match k2 v a w h2]
      have ha : ¬a = k := fun he => by
        have haeq : a = k2 := eq_of_beq h2
        rw [he] at haeq
        rw [haeq] at h
        simp at h
      simp [assq, ha, ih]

/-- Record assignment stores the assigned value under the assigned key. -/
theorem assq_recordSet_self {α : Type} (k : String) (v : α)
    (r : List (String × α)) : assq k (recordSet r k v) = some v := by
  unfold recordSet
  cases h : r.any (fun p => p.1 == k) with
  | true => simp [h, assq_map_set k v r h]
  | false =>
    rw [if_neg (by simp [h]), assq_append, assq_none_of_any_false k r h]
    simp [assq]

/-- Record assignment under one key leaves every other key unchanged. -/
theorem assq_recordSet_ne {α : Type} (k k2 : String) (v : α)
    (r : List (String × α)) (h : (k2 == k) = false) :
    assq k (recordSet r k2 v) = assq k r := by
  unfold recordSet
  cases hany : r.any (fun p => p.1 == k2) with
  | true => simp [hany, assq_map_set_ne k k2 v r h]
  | false =>
    rw [if_neg (by simp [hany]), assq_append]
    cases hr : assq k r <;> simp [hr, assq, h]

/-- Fold invariant of workspace discovery: after processing a listing,
the record maps a name to the metadata of the last directory entry that
declares that name, falling back to the accumulated record. -/
theorem assq_discover_fold (packagesPath : String) (entries : List DirEntry) :
    ∀ (acc : List (String × PackageMetadata)) (k : String),
    assq k (entries.foldl (discoverStep packagesPath) acc) =
      (match lastDirNamed k entries with
        | some e => some (makePackageMetadata packagesPath e)
        | none => assq k acc) := by
  induction entries with
  | nil => intro acc k; rfl
  | cons e rest ih =>
    intro acc k
    simp only [List.foldl_cons]
    rw [ih]
    cases hrest : lastDirNamed k rest with
    | some r => simp [lastDirNamed, hrest]
    | none =>
      simp only [lastDirNamed, hrest]
      unfold discoverStep
      cases hd : e.isDir with
      | false => simp [hd]
      | true =>
        cases hn : (e.manifest.name == k) with
        | true =>
          have hk : e.manifest.name = k := eq_of_beq hn
          simp [hd, hn, hk, assq_recordSet_self]
        | false =>
          simp [hd, hn, assq_recordSet_ne k e.manifest.name _ acc hn]

/-- C9 (amended): workspace discovery raises no error on duplicate
manifest names; the returned snapshot maps every name to the metadata of
the last-processed directory entry declaring that name — last write wins,
the earlier package is silently dropped. -/
theorem getPackagesMetadata_last_write_wins (packagesPath : String)
    (entries : List DirEntry) (k : String) :
    assq k (getPackagesMetadata packagesPath entries) =
      (lastDirNamed k entries).map (makePackageMetadata packagesPath) := by
  unfold getPackagesMetadata
  rw [assq_discover_fold]
  cases h : lastDirNamed k entries <;> simp [h, assq]

/-- C9 counterexample: two directories whose manifests both declare the
name foo do not make discovery fail with a DuplicateName error — the call
returns normally and the snapshot holds exactly one entry under foo, the
one of the later directory. -/
theorem getPackagesMetadata_duplicate_keeps_last :
    getPackagesMetadata "root/packages" [dupEntryA, dupEntryB] =
        [("foo", makePackageMetadata "root/packages" dupEntryB)] ∧
      dupEntryA.manifest.name = dupEntryB.manifest.name ∧
      dupEntryA.dirName ≠ dupEntryB.dirName := by
  decide

/-- After a performDiff call, the map holds the result of the call under
the requested tag. -/
theorem assq_performDiff_self (oracle : String → String → List String)
    (tag p : String) (diffs : List (String × List String)) :
    assq tag (performDiff oracle tag p diffs).2.1 =
      some ((performDiff oracle tag p diffs).1) := by
  unfold performDiff
  cases h : assq tag diffs with
  | some c => simp [h]
  | none => simp [h, assq_append, assq]

/-- A performDiff call preserves every entry already in the map. -/
theorem assq_performDiff_preserve (oracle : String → String → List String)
    (t tag p : String) (diffs : List (String × List String))
    (d : List String) (h : assq t diffs = some d) :
    assq t (performDiff oracle tag p diffs).2.1 = some d := by
  unfold performDiff
  cases h2 : assq tag diffs with
  | some c => simp [h2, h]
  | none => simp [h2, assq_append, h]

/-- A whole run preserves every entry already in the map. -/
theorem runDiffs_preserve (oracle : String → String → List String) :
    ∀ (rs : List (String × String)) (diffs : List (String × List String))
      (t : String) (d : List String), assq t diffs = some d →
      assq t (runDiffs oracle rs diffs).2 = some d := by
  intro rs
  induction rs with
  | nil => intro diffs t d h; simpa [runDiffs] using h
  | cons r rest ih =>
    intro diffs t d h
    obtain ⟨tag, p⟩ := r
    simp only [runDiffs]
    exact ih _ t d (assq_performDiff_preserve oracle t tag p diffs d h)

/-- The answer to every request in a run equals the entry stored in the final
map under the tag of the request. -/
theorem runDiffs_result (oracle : String → String → List String) :
    ∀ (rs : List (String × String)) (diffs : List (String × List String))
      (i : Nat) (t p : String), rs[i]? = some (t, p) →
      ∃ d, assq t (runDiffs oracle rs diffs).2 = some d ∧
        (((runDiffs oracle rs diffs).1)[i]?).map Prod.fst = some d := by
  intro rs
  induction rs with
  | nil => intro diffs i t p h; simp at h
  | cons r rest ih =>
    intro diffs i t p h
    obtain ⟨t0, p0⟩ := r
    cases i with
    | zero =>
      simp only [List.getElem?_cons_zero, Option.some_inj, Prod.mk.injEq] at h
      obtain ⟨h1, h2⟩ := h
      subst h1
      refine ⟨(performDiff oracle t0 p0 diffs).1, ?_, ?_⟩
      · simp only [runDiffs]
        exact runDiffs_preserve oracle rest _ t0 _
          (assq_performDiff_self oracle t0 p0 diffs)
      · simp [runDiffs]
    | succ i =>
      simp only [List.getElem?_cons_succ] at h
      obtain ⟨d, hm, hr⟩ := ih (performDiff oracle t0 p0 diffs).2.1 i t p h
      refine ⟨d, ?_, ?_⟩
      · simp only [runDiffs]; exact hm
      · simp only [runDiffs, List.getElem?_cons_succ]; exact hr

/-- Bound on history-tool invocations for one tag during a run: none when
the tag is already cached, at most one otherwise. -/
theorem countInvoked_bound (oracle : String → String → List String) :
    ∀ (rs : List (String × String)) (diffs : List (String × List String))
      (t : String),
      countInvoked t rs (runDiffs oracle rs diffs).1 ≤
        (if (assq t diffs).isSome then 0 else 1) := by
  intro rs
  induction rs with
  | nil =>
    intro diffs t
    cases (assq t diffs).isSome <;> simp [runDiffs, countInvoked]
  | cons r rest ih =>
    intro diffs t
    obtain ⟨t0, p0⟩ := r
    simp only [runDiffs]
    cases hc : assq t0 diffs with
    | some c =>
      have hres : performDiff oracle t0 p0 diffs = (c, diffs, false) := by
        unfold performDiff; rw [hc]
      rw [hres]
      simpa [countInvoked] using ih diffs t
    | none =>
      have hres : performDiff oracle t0 p0 diffs =
          (oracle t0 p0, diffs ++ [(t0, oracle t0 p0)], true) := by
        unfold performDiff; rw [hc]
      rw [hres]
      cases ht : (t0 == t) with
      | false =>
        have hpres : assq t (diffs ++ [(t0, oracle t0 p0)]) = assq t diffs := by
          rw [assq_append]
          cases h2 : assq t diffs <;> simp [h2, assq, ht]
        have hrest := ih (diffs ++ [(t0, oracle t0 p0)]) t
        rw [hpres] at hrest
        simpa [countInvoked, ht] using hrest
      | true =>
        have htt : t0 = t := eq_of_beq ht
        have hnone : assq t diffs = none := by rw [← htt]; exact hc
        have hsome : assq t (diffs ++ [(t0, oracle t0 p0)]) =
            some (oracle t0 p0) := by
          rw [assq_append, ← htt, hc]
          simp [assq]
        have hrest := ih (diffs ++ [(t0, oracle t0 p0)]) t
        rw [hsome] at hrest
        simp only [Option.isSome_some, if_pos, Nat.le_zero] at hrest
        simp [countInvoked, ht, hnone, hrest]

/-- C10: within one run started with an empty diff cache, the underlying
history tool is invoked at most once per distinct tag, and any two
requests carrying the same tag receive the same list of changed paths —
repeated requests are answered from the cache with the result of the first
result. -/
theorem performDiff_memoization (oracle : String → String → List String)
    (requests : List (String × String)) :
    (∀ t, countInvoked t requests (runDiffs oracle requests []).1 ≤ 1) ∧
      (∀ (i j : Nat) (t p q : String),
        requests[i]? = some (t, p) → requests[j]? = some (t, q) →
        (((runDiffs oracle requests []).1)[i]?).map Prod.fst =
          (((runDiffs oracle requests []).1)[j]?).map Prod.fst) := by
  constructor
  · intro t
    simpa [assq] using countInvoked_bound oracle requests [] t
  · intro i j t p q hi hj
    obtain ⟨d1, hm1, hr1⟩ := runDiffs_result oracle requests [] i t p hi
    obtain ⟨d2, hm2, hr2⟩ := runDiffs_result oracle requests [] j t q hj
    rw [hm1] at hm2
    rw [hr1, hr2, Option.some_inj.mp hm2]

/-- Witness for C10 at a concrete oracle and a request sequence that
repeats one tag. -/
theorem performDiff_memoization_witness :
    countInvoked "v1.0.0" sampleRequests
        (runDiffs sampleDiffOracle sampleRequests []).1 ≤ 1 ∧
      (((runDiffs sampleDiffOracle sampleRequests []).1)[0]?).map Prod.fst =
        (((runDiffs sampleDiffOracle sampleRequests []).1)[1]?).map Prod.fst :=
  ⟨(performDiff_memoization sampleDiffOracle sampleRequests).1 "v1.0.0",
    (performDiff_memoization sampleDiffOracle sampleRequests).2 0 1 "v1.0.0"
      "packages" "packages" (by decide) (by decide)⟩

end MonorepoRelease
